import Mathlib

/-!
Verification of the block metadata synchronization and compaction coordination
core (pkg/storage/tsdb/block/fetcher.go, pkg/compactor/block_upload.go and the
job readiness gate) against its specification.

The Go code is shallowly embedded: object-store interactions are represented by
per-block probe oracles describing the bucket's responses, maps are association
lists, and the concurrent worker fan-out (whose per-block results are merged
under a mutex) is represented by a fold over the scheduled block list.
-/

/-- Association list map, the embedding of Go maps. -/
abbrev AssocMap (α β : Type) : Type := List (α × β)

namespace AssocMap

variable {α β : Type} [DecidableEq α]

/-- The empty map. -/
def empty : AssocMap α β := []

/-- Look up the value at a key (first matching entry). -/
def lookup : AssocMap α β → α → Option β
  | [], _ => none
  | p :: rest, k => if p.1 = k then some p.2 else lookup rest k

/-- Map assignment `m[k] = v`: replace the first entry at `k`, else append. -/
def insert : AssocMap α β → α → β → AssocMap α β
  | [], k, v => [(k, v)]
  | p :: rest, k, v => if p.1 = k then (k, v) :: rest else p :: insert rest k v

/-- Map deletion `delete(m, k)`: drop every entry at `k`. -/
def eraseKey (m : AssocMap α β) (k : α) : AssocMap α β :=
  m.filter (fun p => !(decide (p.1 = k)))

/-- The list of keys in iteration order. -/
def keys (m : AssocMap α β) : List α := m.map Prod.fst

end AssocMap

/-- Block identifier: a ULID, whose high bits encode a millisecond creation
timestamp and whose low bits are random. -/
structure BlockId where
  time : Nat
  rand : Nat
deriving Repr, DecidableEq

/-- Block meta record (metadata.Meta): schema version, time bounds, compaction
level, source lineage, external labels and provenance tag. -/
structure Meta where
  ulid : BlockId
  version : Int
  mint : Int
  maxt : Int
  level : Nat
  sources : List BlockId
  labels : AssocMap String String
  source : String
deriving Repr, DecidableEq

/-- Result of the `bkt.Exists(id/meta.json)` call in loadMeta. -/
inductive ExistsRes where
  | err (msg : String)
  | absent
  | present
deriving Repr, DecidableEq

/-- Result of `bkt.Get(id/meta.json)` followed by read and JSON unmarshal:
not found (deleted between the exists and get calls), a transport error,
content that fails to unmarshal, or a parsed meta record. -/
inductive GetRes where
  | notFound
  | err (msg : String)
  | corrupt
  | content (m : Meta)
deriving Repr, DecidableEq

/-- Oracle describing the bucket's (and local disk cache's) responses for one
block during loadMeta. -/
structure BlockProbe where
  existsRes : ExistsRes
  diskCache : Option Meta
  getRes : GetRes
deriving Repr, DecidableEq

/-- Error classes distinguished by the fetchMetadata workers:
the `ErrorSyncMetaNotFound` and `ErrorSyncMetaCorrupted` sentinels
(matched via errors.Is on the cause), and all other errors. -/
inductive LoadErr where
  | metaNotFound (msg : String)
  | metaCorrupted (msg : String)
  | other (msg : String)
deriving Repr, DecidableEq

/-- BaseFetcher.loadMeta: check existence, consult the in-memory cache, then
the best-effort disk cache, then get and parse meta.json from the bucket.
An unmarshal failure is the corrupted sentinel; an unsupported schema version
is a plain (non-sentinel) error. -/
def loadMeta (cached : AssocMap BlockId Meta) (id : BlockId) (p : BlockProbe) :
    Except LoadErr Meta :=
  match p.existsRes with
  | .err e => .error (.other ("meta.json file exists: " ++ e))
  | .absent => .error (.metaNotFound "meta.json not found")
  | .present =>
    match AssocMap.lookup cached id with
    | some m => .ok m
    | none =>
      match p.diskCache with
      | some m => .ok m
      | none =>
        match p.getRes with
        | .notFound => .error (.metaNotFound "meta.json not found: deleted between exists and get")
        | .err e => .error (.other ("get meta file: " ++ e))
        | .corrupt => .error (.metaCorrupted "meta.json corrupted: unmarshal")
        | .content m =>
          if m.version = 1 then .ok m
          else .error (.other "unexpected meta file version")

/-- The shared response assembled by the fetchMetadata workers under the mutex. -/
structure Response where
  metas : AssocMap BlockId Meta
  partBlocks : AssocMap BlockId LoadErr
  metaErrs : List LoadErr
  noMetas : Nat
  corruptedMetas : Nat
deriving Repr, DecidableEq

/-- The response all workers start from. -/
def Response.empty : Response := ⟨[], [], [], 0, 0⟩

/-- One worker iteration of fetchMetadata: load the meta and merge the result
into the shared response. Sentinel errors are counted and recorded in the
per-block map; any other error is added to the multi-error (and the block is
not recorded in the per-block map). -/
def workerStep (cached : AssocMap BlockId Meta) (r : Response) (b : BlockId × BlockProbe) :
    Response :=
  match loadMeta cached b.1 b.2 with
  | .ok m => { r with metas := r.metas.insert b.1 m }
  | .error e =>
    match e with
    | .metaNotFound _ =>
      { r with noMetas := r.noMetas + 1, partBlocks := r.partBlocks.insert b.1 e }
    | .metaCorrupted _ =>
      { r with corruptedMetas := r.corruptedMetas + 1, partBlocks := r.partBlocks.insert b.1 e }
    | .other _ => { r with metaErrs := r.metaErrs ++ [e] }

/-- The mutable state of a BaseFetcher: its in-memory meta cache. -/
structure FetcherState where
  cached : AssocMap BlockId Meta
deriving Repr, DecidableEq

/-- BaseFetcher.fetchMetadata: run the workers over the discovered blocks and,
only when there were no transport-level errors, replace the in-memory cache
with (a copy of) the fresh meta map; otherwise leave the cache untouched. -/
def fetchMetadata (st : FetcherState) (blocks : List (BlockId × BlockProbe)) :
    Response × FetcherState :=
  let resp := blocks.foldl (workerStep st.cached) Response.empty
  if resp.metaErrs.isEmpty then (resp, { cached := resp.metas })
  else (resp, st)

/-- A metadata filter in functional form: it receives the meta map and either
fails or returns the (possibly reduced or modified) map. -/
def MetaFilter : Type := AssocMap BlockId Meta → Except String (AssocMap BlockId Meta)

/-- Apply the filter chain in registration order, stopping at the first error. -/
def applyFilters : List MetaFilter → AssocMap BlockId Meta →
    Except String (AssocMap BlockId Meta)
  | [], metas => .ok metas
  | f :: fs, metas =>
    match f metas with
    | .error e => .error e
    | .ok metas' => applyFilters fs metas'

/-- Result of BaseFetcher.fetch as seen by the caller of MetaFetcher.Fetch:
success with metas and the per-block map, the incomplete-view error carrying
both together with the aggregated multi-error, or a filter failure. -/
inductive FetchOutcome where
  | ok (metas : AssocMap BlockId Meta) (partBlocks : AssocMap BlockId LoadErr)
  | incomplete (metas : AssocMap BlockId Meta) (partBlocks : AssocMap BlockId LoadErr)
      (errs : List LoadErr)
  | filterFailed (msg : String)
deriving Repr, DecidableEq

/-- BaseFetcher.fetch: obtain the single-flight response, pass a copy of its
meta map through the filter chain, and return the incomplete-view error iff
the response carried transport-level errors. -/
def fetch (st : FetcherState) (blocks : List (BlockId × BlockProbe))
    (filters : List MetaFilter) : FetchOutcome × FetcherState :=
  let r := fetchMetadata st blocks
  match applyFilters filters r.1.metas with
  | .error e => (.filterFailed e, r.2)
  | .ok metas =>
    if r.1.metaErrs.isEmpty then (.ok metas r.1.partBlocks, r.2)
    else (.incomplete metas r.1.partBlocks r.1.metaErrs, r.2)

/-- Two to the sixty-fourth, the modulus of Go's uint64 arithmetic. -/
def U64 : Nat := 2 ^ 64

/-- ConsistencyDelayMetaFilter.Filter: remove every meta whose BlockId age
(uint64 subtraction of the embedded timestamp from now) is below the delay,
unless its source is one of the repair or compactor sources. -/
def ConsistencyDelayMetaFilter.Filter (nowMs delayMs : Nat) : MetaFilter := fun metas =>
  .ok (List.filter (fun p =>
    !(decide ((nowMs + U64 - p.1.time) % U64 < delayMs)
      && !(p.2.source == "bucket-repair")
      && !(p.2.source == "compactor")
      && !(p.2.source == "compactor-repair"))) metas)

/-- Result of the `metadata.ReadMarker(id/deletion-mark.json)` probe performed
by the deletion-mark filter for one block: the marker-not-found sentinel, the
unmarshal-failure sentinel, any other error, or a parsed mark carrying its
deletion time (Unix seconds). -/
inductive MarkProbe where
  | notFound
  | unmarshalErr
  | err (msg : String)
  | mark (deletionTime : Int)
deriving Repr, DecidableEq

/-- Accumulator of the deletion-mark filter workers: the meta map being
filtered in place, the run-local mark map, and the last non-sentinel probe
error remembered while draining the channel. -/
structure DelMarkAcc where
  metas : AssocMap BlockId Meta
  localMarks : AssocMap BlockId Int
  lastErr : Option String
deriving Repr, DecidableEq

/-- One worker iteration of IgnoreDeletionMarkFilter.Filter: sentinel probe
results are skipped, another error is remembered, and a parsed mark is added
to the local map and removes the meta when older than the delay. -/
def delMarkStep (nowSec delaySec : Int) (probes : BlockId → MarkProbe)
    (acc : DelMarkAcc) (id : BlockId) : DelMarkAcc :=
  match probes id with
  | .notFound => acc
  | .unmarshalErr => acc
  | .err e => { acc with lastErr := some e }
  | .mark t =>
    { acc with
      localMarks := acc.localMarks.insert id t
      metas := if nowSec - t > delaySec then acc.metas.eraseKey id else acc.metas }

/-- IgnoreDeletionMarkFilter.Filter: probe deletion marks for all blocks of the
meta map; on any non-sentinel probe error return that error (wrapped) without
installing the run-local mark map into the published field; otherwise install
it and return the reduced meta map. The second component is the new published
deletion-mark map (the one DeletionMarkBlocks reads). -/
def IgnoreDeletionMarkFilter.Filter (nowSec delaySec : Int) (probes : BlockId → MarkProbe)
    (published : AssocMap BlockId Int) (metas : AssocMap BlockId Meta) :
    Except String (AssocMap BlockId Meta) × AssocMap BlockId Int :=
  let acc := (AssocMap.keys metas).foldl (delMarkStep nowSec delaySec probes)
    ⟨metas, [], none⟩
  match acc.lastErr with
  | some e => (.error ("filter blocks marked for deletion: " ++ e), published)
  | none => (.ok acc.metas, acc.localMarks)

/-- Recognized external label names (pkg/storage/tsdb constants). -/
def TenantIDExternalLabel : String := "__org_id__"

/-- Compactor shard id external label name. -/
def CompactorShardIDExternalLabel : String := "__compactor_shard_id__"

/-- Ingester id external label name (unused, stripped at upload). -/
def IngesterIDExternalLabel : String := "__ingester_id__"

/-- Deprecated shard id external label name (unused, stripped at upload). -/
def DeprecatedShardIDExternalLabel : String := "__shard_id__"

/-- Whether a label is outside the recognized set handled by sanitizeMeta
(neither preserved nor removed as unused). -/
def rejectedLabel (p : String × String) : Bool :=
  !(p.1 == TenantIDExternalLabel) && !(p.1 == CompactorShardIDExternalLabel)
  && !(p.1 == IngesterIDExternalLabel) && !(p.1 == DeprecatedShardIDExternalLabel)

/-- MultitenantCompactor.sanitizeMeta: enforce the block id, set the tenant
label, strip the unused ingester and deprecated shard labels, reject any label
outside the recognized set (bad request), and stamp the upload source. -/
def sanitizeMeta (tenantID : String) (blockID : BlockId) (meta : Meta) :
    Except String Meta :=
  let labels1 := meta.labels.insert TenantIDExternalLabel tenantID
  let rejected := List.filter rejectedLabel labels1
  if rejected.isEmpty then
    .ok { meta with
      ulid := blockID
      labels := (labels1.eraseKey IngesterIDExternalLabel).eraseKey DeprecatedShardIDExternalLabel
      source := "upload" }
  else
    .error ("unsupported external label(s): " ++
      String.intercalate "," (AssocMap.keys rejected))

/-- An object stored in the bucket under a block prefix: a meta descriptor
(JSON that decodes to a Meta) or an opaque block file. -/
inductive Obj where
  | metaObj (m : Meta)
  | fileObj (content : Int)
deriving Repr, DecidableEq

/-- The object store under one tenant prefix: a map from (block id, relative
path) to the stored object. -/
abbrev Bucket : Type := AssocMap (BlockId × String) Obj

/-- MultitenantCompactor.createBlockUpload (begin): conflict if meta.json
already exists, decode and sanitize the body, and on success write the
sanitized meta to meta.json.temp only. Returns the HTTP status and new bucket. -/
def createBlockUpload (bkt : Bucket) (tenantID : String) (blockID : BlockId)
    (body : Option Meta) : Nat × Bucket :=
  if (bkt.lookup (blockID, "meta.json")).isSome then (409, bkt)
  else
    match body with
    | none => (400, bkt)
    | some meta =>
      match sanitizeMeta tenantID blockID meta with
      | .error _ => (400, bkt)
      | .ok m => (200, bkt.insert (blockID, "meta.json.temp") (.metaObj m))

/-- Go path.Base on the file path of an upload request. -/
def pathBase (p : String) : String :=
  if p = "" then "."
  else
    let cs := (p.toList.reverse.dropWhile (· = '/')).reverse
    if cs.isEmpty then "/"
    else String.mk (cs.reverse.takeWhile (· ≠ '/')).reverse

/-- The upload path allow-list `^(index|chunks/\d{6})$`. -/
def isAllowedPath (p : String) : Bool :=
  p == "index" ||
    (p.toList.length == 13 && p.toList.take 7 == "chunks/".toList
      && (p.toList.drop 7).all (fun c => '0' ≤ c && c ≤ '9'))

/-- A request to UploadBlockFile: the parsed block id (none when missing or
invalid), the `path` query parameter, tenant extraction success, body presence,
the declared content length (negative when unknown) and the body content. -/
structure FileUploadReq where
  blockID : Option BlockId
  pth : String
  tenantOk : Bool
  hasBody : Bool
  contentLength : Int
  content : Int
deriving Repr, DecidableEq

/-- MultitenantCompactor.UploadBlockFile: validate the block id, path, tenant
and body, require meta.json.temp to exist (begin was called), then store the
body at the requested path. Returns the HTTP status and new bucket. -/
def UploadBlockFile (bkt : Bucket) (req : FileUploadReq) : Nat × Bucket :=
  match req.blockID with
  | none => (400, bkt)
  | some blockID =>
    if req.pth = "" then (400, bkt)
    else if req.tenantOk = false then (400, bkt)
    else if pathBase req.pth = "meta.json" then (400, bkt)
    else if isAllowedPath req.pth = false then (400, bkt)
    else if req.hasBody = false ∨ req.contentLength = 0 then (400, bkt)
    else
      match bkt.lookup (blockID, "meta.json.temp") with
      | none => (400, bkt)
      | some (.fileObj _) => (500, bkt)
      | some (.metaObj _) => (200, bkt.insert (blockID, req.pth) (.fileObj req.content))

/-- MultitenantCompactor.completeBlockUpload (commit): read the staged
descriptor from meta.json.temp (internal error if missing or undecodable),
write it to meta.json — the visibility flip — and delete meta.json.temp. -/
def completeBlockUpload (bkt : Bucket) (blockID : BlockId) : Nat × Bucket :=
  match bkt.lookup (blockID, "meta.json.temp") with
  | none => (500, bkt)
  | some (.fileObj _) => (500, bkt)
  | some (.metaObj m) =>
    (200, ((bkt.insert (blockID, "meta.json") (.metaObj m)).eraseKey
      (blockID, "meta.json.temp")))

/-- Fold a sequence of file-upload requests through UploadBlockFile. -/
def runUploads (bkt : Bucket) (reqs : List FileUploadReq) : Bucket :=
  reqs.foldl (fun b r => (UploadBlockFile b r).2) bkt

/-- Modelled from the spec: jobWaitPeriodElapsed is code of this repository
that is not under src/ (only its test TestJobWaitPeriodElapsed is); this loop
follows spec section 4.G. Scan the job's metas in order; probe the upload
attributes of each compaction-level-1 block: a probe error is authoritative
and stops the scan with that meta and error; a level-1 block whose upload age
is within the wait period makes the job not ready. -/
def jobWaitPeriodElapsedLoop (now waitPeriod : Int) (attrs : BlockId → Except String Int) :
    List Meta → Bool × Option Meta × Option String
  | [] => (true, none, none)
  | m :: rest =>
    if m.level = 1 then
      match attrs m.ulid with
      | .error e => (false, some m, some e)
      | .ok lastModified =>
        if now - lastModified < waitPeriod then (false, some m, none)
        else jobWaitPeriodElapsedLoop now waitPeriod attrs rest
    else jobWaitPeriodElapsedLoop now waitPeriod attrs rest

/-- Modelled from the spec: jobWaitPeriodElapsed (spec section 4.G). When the
wait period is disabled the job is ready immediately; otherwise the level-1
metas are probed in order. -/
def jobWaitPeriodElapsed (now waitPeriod : Int) (attrs : BlockId → Except String Int)
    (metas : List Meta) : Bool × Option Meta × Option String :=
  if waitPeriod = 0 then (true, none, none)
  else jobWaitPeriodElapsedLoop now waitPeriod attrs metas

/-- A sample block id. -/
def blockA : BlockId := ⟨0, 0⟩

/-- A second sample block id. -/
def blockB : BlockId := ⟨1, 1⟩

/-- A sample level-1 ingester meta for blockA. -/
def metaA : Meta := ⟨blockA, 1, 0, 1000, 1, [], [], "ingester"⟩

/-- A sample level-1 ingester meta for blockB. -/
def metaB : Meta := ⟨blockB, 1, 0, 1000, 1, [], [], "ingester"⟩

/-- A probe whose meta.json exists and parses to the given meta. -/
def probeOk (m : Meta) : BlockProbe := ⟨.present, none, .content m⟩

/-- A probe whose meta.json is deleted between the exists and get calls. -/
def probeVanished : BlockProbe := ⟨.present, none, .notFound⟩

/-- A probe whose get fails with a transport error. -/
def probeTransport : BlockProbe := ⟨.present, none, .err "timeout"⟩

/-- A meta like metaA but carrying an unrecognized schema version. -/
def metaV2 : Meta := { metaA with version := 2 }

/-- A sample uploaded meta carrying a compactor shard label and an ingester
label. -/
def metaUp : Meta :=
  { metaA with labels := [(CompactorShardIDExternalLabel, "1_of_2"),
    (IngesterIDExternalLabel, "ing-7")] }

/-- The sanitized form of metaUp for tenant-1. -/
def metaUpSan : Meta :=
  { metaA with labels := [(CompactorShardIDExternalLabel, "1_of_2"),
    (TenantIDExternalLabel, "tenant-1")], source := "upload" }

/-- A mark-probe oracle: blockA carries a parsed deletion mark, every other
block's probe fails with a non-sentinel error. -/
def marksProbe : BlockId → MarkProbe := fun id =>
  if id = blockA then .mark 0 else .err "boom"

/-- A bucket holding only blockA's staged descriptor. -/
def bktStagedW : Bucket := [((blockA, "meta.json.temp"), .metaObj metaUpSan)]

/-- A file-upload request aimed at meta.json. -/
def reqMetaW : FileUploadReq := ⟨some blockA, "meta.json", true, true, 10, 7⟩

/-- A file-upload request with a zero content length. -/
def reqEmptyW : FileUploadReq := ⟨some blockA, "index", true, true, 0, 7⟩

/-- A well-formed index upload request. -/
def reqIdxW : FileUploadReq := ⟨some blockA, "index", true, true, 10, 7⟩

/-- An index upload request whose content length is unknown (negative). -/
def reqUnknownLenW : FileUploadReq := ⟨some blockA, "index", true, true, -1, 7⟩

/-- A level-1 meta uploaded long ago (readiness-gate scenarios). -/
def metaL1Old : Meta := { metaA with ulid := ⟨10, 0⟩ }

/-- A level-1 meta uploaded recently (readiness-gate scenarios). -/
def metaL1New : Meta := { metaA with ulid := ⟨20, 0⟩ }

/-- A level-2 meta (compactor output, readiness-gate scenarios). -/
def metaL2a : Meta := { metaA with ulid := ⟨30, 0⟩, level := 2 }

/-- Another level-2 meta (readiness-gate scenarios). -/
def metaL2b : Meta := { metaA with ulid := ⟨40, 0⟩, level := 2 }

/-- Upload timestamps for the readiness-gate scenarios: the old block at time
0, every other block at time 900. -/
def attrsW : BlockId → Except String Int := fun id =>
  if id = (⟨10, 0⟩ : BlockId) then .ok 0 else .ok 900

namespace AssocMap

variable {α β : Type} [DecidableEq α]

/-- Looking up the freshly assigned key returns the assigned value. -/
theorem lookup_insert_self (m : AssocMap α β) (k : α) (v : β) :
    (m.insert k v).lookup k = some v := by
  induction m with
  | nil => simp [insert, lookup]
  | cons p rest ih =>
    by_cases h : p.1 = k
    · simp [insert, h, lookup]
    · simp [insert, h, lookup, ih]

/-- Assigning a key the value it already holds leaves the map unchanged. -/
theorem insert_eq_of_lookup (m : AssocMap α β) (k : α) (v : β)
    (h : m.lookup k = some v) : m.insert k v = m := by
  induction m with
  | nil => simp [lookup] at h
  | cons p rest ih =>
    by_cases hp : p.1 = k
    · simp [lookup, hp] at h
      cases p with
      | mk a b => simp_all [insert]
    · simp [lookup, hp] at h
      simp [insert, hp, ih h]

/-- Deleting one key does not change lookups of another. -/
theorem lookup_eraseKey_ne (m : AssocMap α β) (k k' : α) (h : k' ≠ k) :
    (m.eraseKey k).lookup k' = m.lookup k' := by
  have h2 : ¬ (k = k') := fun hh => h hh.symm
  induction m with
  | nil => rfl
  | cons p rest ih =>
    simp only [eraseKey] at ih ⊢
    by_cases hp : p.1 = k
    · have hpk : ¬ (p.1 = k') := fun hh => h (by rw [← hh, hp])
      simp [List.filter, hp, lookup, hpk, ih, h2]
    · by_cases hq : p.1 = k'
      · simp [List.filter, hp, lookup, hq, h]
      · simp [List.filter, hp, lookup, hq, ih]

/-- Entries surviving a deletion were entries of the original map. -/
theorem mem_of_mem_eraseKey {m : AssocMap α β} {k : α} {p : α × β}
    (h : p ∈ m.eraseKey k) : p ∈ m :=
  (List.mem_filter.mp h).1

/-- No entry surviving a deletion carries the deleted key. -/
theorem ne_of_mem_eraseKey {m : AssocMap α β} {k : α} {p : α × β}
    (h : p ∈ m.eraseKey k) : p.1 ≠ k := by
  have := (List.mem_filter.mp h).2
  simpa using this

/-- Deleting a key no entry carries leaves the map unchanged. -/
theorem eraseKey_eq_of_forall {m : AssocMap α β} {k : α}
    (h : ∀ p ∈ m, p.1 ≠ k) : m.eraseKey k = m := by
  apply List.filter_eq_self.mpr
  intro p hp
  simpa using h p hp

/-- Assigning one key does not change lookups of another. -/
theorem lookup_insert_ne (m : AssocMap α β) (k k' : α) (v : β) (h : k' ≠ k) :
    (m.insert k v).lookup k' = m.lookup k' := by
  have h2 : ¬ (k = k') := fun hh => h hh.symm
  induction m with
  | nil => simp [insert, lookup, h2]
  | cons p rest ih =>
    by_cases hp : p.1 = k
    · have hpk : ¬ (p.1 = k') := fun hh => h (by rw [← hh, hp])
      simp [insert, hp, lookup, hpk, h2]
    · by_cases hq : p.1 = k'
      · simp [insert, hp, lookup, hq, h]
      · simp [insert, hp, lookup, hq, ih]

end AssocMap

/-- The allow-list admits neither the block descriptor nor its staged form. -/
theorem allowed_path_ne_meta {p : String} (h : isAllowedPath p = true) :
    p ≠ "meta.json" ∧ p ≠ "meta.json.temp" := by
  constructor
  · intro hp; rw [hp] at h; exact absurd h (by decide)
  · intro hp; rw [hp] at h; exact absurd h (by decide)

/-- The begin step touches no key other than the block's staged descriptor. -/
theorem createBlockUpload_frame (bkt : Bucket) (tenantID : String) (blockID : BlockId)
    (body : Option Meta) (k : BlockId × String) (hk : k ≠ (blockID, "meta.json.temp")) :
    ((createBlockUpload bkt tenantID blockID body).2).lookup k = bkt.lookup k := by
  unfold createBlockUpload
  by_cases h1 : (bkt.lookup (blockID, "meta.json")).isSome
  · simp [h1]
  · cases body with
    | none => simp [h1]
    | some meta =>
      cases hs : sanitizeMeta tenantID blockID meta with
      | error e => simp [h1, hs]
      | ok m =>
        simp only [h1, hs, Bool.false_eq_true, if_false]
        exact AssocMap.lookup_insert_ne _ _ _ _ hk

/-- A file upload never writes any block's meta.json or staged descriptor. -/
theorem uploadBlockFile_meta_frame (bkt : Bucket) (req : FileUploadReq) (id2 : BlockId) :
    ((UploadBlockFile bkt req).2).lookup (id2, "meta.json") =
      bkt.lookup (id2, "meta.json") ∧
    ((UploadBlockFile bkt req).2).lookup (id2, "meta.json.temp") =
      bkt.lookup (id2, "meta.json.temp") := by
  unfold UploadBlockFile
  cases hb : req.blockID with
  | none => exact ⟨rfl, rfl⟩
  | some id =>
    dsimp only
    by_cases h1 : req.pth = ""
    · simp [h1]
    · by_cases h2 : req.tenantOk = false
      · simp [h1, h2]
      · by_cases h3 : pathBase req.pth = "meta.json"
        · simp [h1, h2, h3]
        · by_cases h4 : isAllowedPath req.pth = false
          · simp [h1, h2, h3, h4]
          · by_cases h5 : req.hasBody = false ∨ req.contentLength = 0
            · simp [h1, h2, h3, h4, h5]
            · rw [if_neg h1, if_neg h2, if_neg h3, if_neg h4, if_neg h5]
              cases hl : bkt.lookup (id, "meta.json.temp") with
              | none => exact ⟨rfl, rfl⟩
              | some o =>
                cases o with
                | fileObj c => exact ⟨rfl, rfl⟩
                | metaObj m =>
                  have h4' : isAllowedPath req.pth = true := by
                    cases hcase : isAllowedPath req.pth
                    · exact absurd hcase h4
                    · rfl
                  have hne := allowed_path_ne_meta h4'
                  constructor
                  · exact AssocMap.lookup_insert_ne _ _ _ _
                      (fun hh => hne.1 (congrArg Prod.snd hh).symm)
                  · exact AssocMap.lookup_insert_ne _ _ _ _
                      (fun hh => hne.2 (congrArg Prod.snd hh).symm)

/-- A sequence of file uploads never changes any block's meta.json or staged
descriptor. -/
theorem runUploads_meta_frame (reqs : List FileUploadReq) (b : Bucket) (id2 : BlockId) :
    (runUploads b reqs).lookup (id2, "meta.json") = b.lookup (id2, "meta.json") ∧
    (runUploads b reqs).lookup (id2, "meta.json.temp") =
      b.lookup (id2, "meta.json.temp") := by
  induction reqs generalizing b with
  | nil => exact ⟨rfl, rfl⟩
  | cons r rest ih =>
    simp only [runUploads, List.foldl]
    constructor
    · have h1 := (ih ((UploadBlockFile b r).2)).1
      simp only [runUploads] at h1
      rw [h1, (uploadBlockFile_meta_frame b r id2).1]
    · have h2 := (ih ((UploadBlockFile b r).2)).2
      simp only [runUploads] at h2
      rw [h2, (uploadBlockFile_meta_frame b r id2).2]

/-- A successful commit returns 200 and installs the staged meta at meta.json. -/
theorem completeBlockUpload_commit (bkt : Bucket) (blockID : BlockId) (m : Meta)
    (h : bkt.lookup (blockID, "meta.json.temp") = some (.metaObj m)) :
    (completeBlockUpload bkt blockID).1 = 200 ∧
    ((completeBlockUpload bkt blockID).2).lookup (blockID, "meta.json") =
      some (.metaObj m) := by
  have hne : ((blockID, "meta.json") : BlockId × String) ≠ (blockID, "meta.json.temp") := by
    intro hh
    have hh2 : ("meta.json" : String) = "meta.json.temp" := congrArg Prod.snd hh
    exact absurd hh2 (by decide)
  unfold completeBlockUpload
  rw [h]
  refine ⟨rfl, ?_⟩
  simp only
  rw [AssocMap.lookup_eraseKey_ne _ _ _ hne, AssocMap.lookup_insert_self]

/-- The response of a sync is the worker fold over the scheduled blocks. -/
theorem fetchMetadata_fst (st : FetcherState) (blocks : List (BlockId × BlockProbe)) :
    (fetchMetadata st blocks).1 = blocks.foldl (workerStep st.cached) Response.empty := by
  unfold fetchMetadata
  by_cases h : (blocks.foldl (workerStep st.cached) Response.empty).metaErrs.isEmpty <;>
    simp [h]

/-- The post-sync fetcher state: the cache is replaced by the fresh meta map
exactly when the response carried no transport-level errors. -/
theorem fetchMetadata_snd (st : FetcherState) (blocks : List (BlockId × BlockProbe)) :
    (fetchMetadata st blocks).2 =
      if (fetchMetadata st blocks).1.metaErrs.isEmpty
      then { cached := (fetchMetadata st blocks).1.metas } else st := by
  rw [fetchMetadata_fst]
  unfold fetchMetadata
  by_cases h : (blocks.foldl (workerStep st.cached) Response.empty).metaErrs.isEmpty <;>
    simp [h]

/-- The state fetch hands back is the state fetchMetadata produced, whatever
the filter chain does. -/
theorem fetch_snd (st : FetcherState) (blocks : List (BlockId × BlockProbe))
    (filters : List MetaFilter) :
    (fetch st blocks filters).2 = (fetchMetadata st blocks).2 := by
  cases hf : applyFilters filters (fetchMetadata st blocks).1.metas with
  | error e => simp [fetch, hf]
  | ok ms =>
    by_cases h : (fetchMetadata st blocks).1.metaErrs.isEmpty <;> simp [fetch, hf, h]

/-- The outcome fetch returns, as a function of the filter chain's result and
the response's multi-error. -/
theorem fetch_fst (st : FetcherState) (blocks : List (BlockId × BlockProbe))
    (filters : List MetaFilter) :
    (fetch st blocks filters).1 =
      (match applyFilters filters (fetchMetadata st blocks).1.metas with
      | .error e => .filterFailed e
      | .ok metas =>
        if (fetchMetadata st blocks).1.metaErrs.isEmpty
        then .ok metas (fetchMetadata st blocks).1.partBlocks
        else .incomplete metas (fetchMetadata st blocks).1.partBlocks
          (fetchMetadata st blocks).1.metaErrs) := by
  cases hf : applyFilters filters (fetchMetadata st blocks).1.metas with
  | error e => simp [fetch, hf]
  | ok ms =>
    by_cases h : (fetchMetadata st blocks).1.metaErrs.isEmpty <;> simp [fetch, hf, h]

/-- C9: sanitizeMeta is idempotent: whenever it succeeds on a meta, applying it
again with the same tenant id and block id succeeds and leaves the meta
unchanged. -/
theorem sanitizeMeta_idempotent (t : String) (id : BlockId) (m m' : Meta)
    (h : sanitizeMeta t id m = .ok m') : sanitizeMeta t id m' = .ok m' := by
  unfold sanitizeMeta at h
  by_cases hrej :
      (List.filter rejectedLabel (m.labels.insert TenantIDExternalLabel t)).isEmpty = true
  case neg =>
    rw [if_neg hrej] at h
    exact absurd h (by simp)
  case pos =>
  rw [if_pos hrej] at h
  set L1 := m.labels.insert TenantIDExternalLabel t with hL1
  set L2 := (L1.eraseKey IngesterIDExternalLabel).eraseKey DeprecatedShardIDExternalLabel
    with hL2
  have hm' :
      ({ m with ulid := id, labels := L2, source := "upload" } : Meta) = m' := by
    injection h
  have hTD : TenantIDExternalLabel ≠ DeprecatedShardIDExternalLabel := by decide
  have hTI : TenantIDExternalLabel ≠ IngesterIDExternalLabel := by decide
  have hlk : L2.lookup TenantIDExternalLabel = some t := by
    rw [hL2, AssocMap.lookup_eraseKey_ne _ _ _ hTD,
      AssocMap.lookup_eraseKey_ne _ _ _ hTI, hL1,
      AssocMap.lookup_insert_self]
  have hins : L2.insert TenantIDExternalLabel t = L2 :=
    AssocMap.insert_eq_of_lookup _ _ _ hlk
  have hforall : ∀ p ∈ L1, ¬ (rejectedLabel p = true) :=
    List.filter_eq_nil_iff.mp (List.isEmpty_iff.mp hrej)
  have hmemL2 : ∀ p ∈ L2, p ∈ L1 := fun p hp =>
    AssocMap.mem_of_mem_eraseKey (AssocMap.mem_of_mem_eraseKey hp)
  have hrej2 : (List.filter rejectedLabel L2).isEmpty = true := by
    rw [List.isEmpty_iff]
    exact List.filter_eq_nil_iff.mpr (fun p hp => hforall p (hmemL2 p hp))
  have hne_ing : ∀ p ∈ L2, p.1 ≠ IngesterIDExternalLabel := fun p hp =>
    AssocMap.ne_of_mem_eraseKey (AssocMap.mem_of_mem_eraseKey hp)
  have hne_dep : ∀ p ∈ L2, p.1 ≠ DeprecatedShardIDExternalLabel := fun p hp =>
    AssocMap.ne_of_mem_eraseKey hp
  have hEI : L2.eraseKey IngesterIDExternalLabel = L2 :=
    AssocMap.eraseKey_eq_of_forall hne_ing
  have hED : L2.eraseKey DeprecatedShardIDExternalLabel = L2 :=
    AssocMap.eraseKey_eq_of_forall hne_dep
  subst hm'
  unfold sanitizeMeta
  have hlbl :
      ({ m with ulid := id, labels := L2, source := "upload" } : Meta).labels = L2 := rfl
  rw [hlbl, hins, if_pos hrej2, hEI, hED]

/-- Witness for C9 at a concrete upload request: a meta carrying a compactor
shard label and an ingester label is sanitized, and sanitizing the result again
returns it unchanged. -/
theorem sanitizeMeta_idempotent_witness :
    sanitizeMeta "tenant-1" blockA metaUp = .ok metaUpSan ∧
    sanitizeMeta "tenant-1" blockA metaUpSan = .ok metaUpSan :=
  ⟨by rfl, sanitizeMeta_idempotent "tenant-1" blockA metaUp metaUpSan (by rfl)⟩

/-- C10: each Fetch call passes a copy of the single-flight response's meta
map through the filter chain, so no filter chain can change the fetcher's
cached map: the post-fetch state is exactly the post-fetchMetadata state, and
the cache equals the fresh meta map when the sync saw no transport-level
errors, and is otherwise the pre-sync cache, wholesale in both cases. -/
theorem fetch_filters_cannot_touch_cache (st : FetcherState)
    (blocks : List (BlockId × BlockProbe)) (filters : List MetaFilter) :
    (fetch st blocks filters).2 = (fetchMetadata st blocks).2 ∧
    (fetch st blocks filters).2.cached =
      (if (fetchMetadata st blocks).1.metaErrs.isEmpty
       then (fetchMetadata st blocks).1.metas else st.cached) := by
  refine ⟨fetch_snd st blocks filters, ?_⟩
  rw [fetch_snd st blocks filters, fetchMetadata_snd st blocks]
  by_cases h : (fetchMetadata st blocks).1.metaErrs.isEmpty <;> simp [h]

/-- C1 counterexample: a sync with no transport error whose consistency-delay
filter removes the only fresh block. The returned meta map is empty while the
in-memory cache holds the block, so cache and returned map differ. -/
theorem fetch_cache_eq_returned_cex :
    (fetch ⟨[]⟩ [(blockA, probeOk metaA)] [ConsistencyDelayMetaFilter.Filter 10 1000]).1 =
      .ok [] [] ∧
    (fetch ⟨[]⟩ [(blockA, probeOk metaA)] [ConsistencyDelayMetaFilter.Filter 10 1000]).2 =
      ⟨[(blockA, metaA)]⟩ ∧
    ([] : AssocMap BlockId Meta) ≠ [(blockA, metaA)] := by
  decide

/-- C1 amended: after a sync that returns no transport-level error the
in-memory cache equals the meta map the response produced before the filter
chain; the map returned to the caller is the filtered copy, so the two
coincide when the filter chain is empty. -/
theorem fetch_cache_eq_prefilter (st : FetcherState)
    (blocks : List (BlockId × BlockProbe))
    (h : (fetchMetadata st blocks).1.metaErrs = []) :
    (fetchMetadata st blocks).2.cached = (fetchMetadata st blocks).1.metas ∧
    (fetch st blocks []).1 =
      .ok (fetchMetadata st blocks).1.metas (fetchMetadata st blocks).1.partBlocks ∧
    (fetch st blocks []).2.cached = (fetchMetadata st blocks).1.metas := by
  have hE : (fetchMetadata st blocks).1.metaErrs.isEmpty = true := by
    rw [List.isEmpty_iff]; exact h
  have h2 : (fetchMetadata st blocks).2.cached = (fetchMetadata st blocks).1.metas := by
    rw [fetchMetadata_snd st blocks, if_pos hE]
  refine ⟨h2, ?_, ?_⟩
  · rw [fetch_fst st blocks []]
    simp [applyFilters, hE]
  · rw [fetch_snd st blocks []]
    exact h2

/-- Witness for C1 amended at a concrete clean sync of one block with no
filters: the cache and the returned map are both that block's meta map. -/
theorem fetch_cache_eq_prefilter_witness :
    (fetchMetadata ⟨[]⟩ [(blockA, probeOk metaA)]).1.metaErrs = [] ∧
    (fetchMetadata ⟨[]⟩ [(blockA, probeOk metaA)]).2.cached =
      (fetchMetadata ⟨[]⟩ [(blockA, probeOk metaA)]).1.metas ∧
    (fetch ⟨[]⟩ [(blockA, probeOk metaA)] []).1 =
      .ok (fetchMetadata ⟨[]⟩ [(blockA, probeOk metaA)]).1.metas
        (fetchMetadata ⟨[]⟩ [(blockA, probeOk metaA)]).1.partBlocks ∧
    (fetch ⟨[]⟩ [(blockA, probeOk metaA)] []).2.cached =
      (fetchMetadata ⟨[]⟩ [(blockA, probeOk metaA)]).1.metas :=
  ⟨by decide, fetch_cache_eq_prefilter ⟨[]⟩ [(blockA, probeOk metaA)] (by decide)⟩

/-- C3: a sync in which at least one per-block transport-level error occurred
(the response's multi-error is non-empty) leaves the in-memory cache at its
pre-sync value, and — whenever the filter chain itself succeeds — returns the
incomplete-view outcome carrying the filtered metas, the per-block partial
map, and the aggregated multi-error. -/
theorem fetch_transport_error_keeps_cache (st : FetcherState)
    (blocks : List (BlockId × BlockProbe)) (filters : List MetaFilter)
    (metas : AssocMap BlockId Meta)
    (herr : (fetchMetadata st blocks).1.metaErrs ≠ [])
    (hf : applyFilters filters (fetchMetadata st blocks).1.metas = .ok metas) :
    (fetch st blocks filters).2 = st ∧
    (fetch st blocks filters).1 =
      .incomplete metas (fetchMetadata st blocks).1.partBlocks
        (fetchMetadata st blocks).1.metaErrs := by
  have hE : (fetchMetadata st blocks).1.metaErrs.isEmpty = false := by
    rcases hne : (fetchMetadata st blocks).1.metaErrs with _ | ⟨a, l⟩
    · exact absurd hne herr
    · rfl
  constructor
  · rw [fetch_snd st blocks filters, fetchMetadata_snd st blocks, hE]
    simp
  · rw [fetch_fst st blocks filters, hf, hE]
    simp

/-- Witness for C3 at a concrete sync: one block whose get fails with a
transport error, a pre-populated cache, and no filters. The cache is
unchanged and the incomplete outcome carries the multi-error. -/
theorem fetch_transport_error_keeps_cache_witness :
    (fetchMetadata ⟨[(blockB, metaB)]⟩ [(blockA, probeTransport)]).1.metaErrs ≠ [] ∧
    (fetch ⟨[(blockB, metaB)]⟩ [(blockA, probeTransport)] []).2 = ⟨[(blockB, metaB)]⟩ ∧
    (fetch ⟨[(blockB, metaB)]⟩ [(blockA, probeTransport)] []).1 =
      .incomplete [] (fetchMetadata ⟨[(blockB, metaB)]⟩ [(blockA, probeTransport)]).1.partBlocks
        (fetchMetadata ⟨[(blockB, metaB)]⟩ [(blockA, probeTransport)]).1.metaErrs :=
  ⟨by decide,
    fetch_transport_error_keeps_cache ⟨[(blockB, metaB)]⟩ [(blockA, probeTransport)] [] []
      (by decide) (by rfl)⟩

/-- C2 counterexample: a sync over a single block whose meta.json parses but
carries version 2. The sync returns the incomplete-view error (so it does
fail on that account) and the per-block partial map is empty (the block is
not reported there), contradicting the claim on both counts. -/
theorem unknown_version_cex :
    (fetch ⟨[]⟩ [(blockA, probeOk metaV2)] []).1 =
      .incomplete [] [] [.other "unexpected meta file version"] ∧
    (fetchMetadata ⟨[]⟩ [(blockA, probeOk metaV2)]).1.partBlocks = [] := by
  decide

/-- C2 amended: a block whose meta.json parses but carries an unrecognized
schema version is treated as a transport-level error, not as a partial block:
loadMeta returns a non-sentinel error, the worker adds it to the aggregated
multi-error and leaves the partial map untouched, and a sync consisting of
such a block returns the incomplete-view error and leaves the cache at its
pre-sync value. -/
theorem unknown_version_sync_error (st : FetcherState) (id : BlockId) (m : Meta)
    (r : Response) (hC : AssocMap.lookup st.cached id = none) (hv : m.version ≠ 1) :
    loadMeta st.cached id (probeOk m) = .error (.other "unexpected meta file version") ∧
    workerStep st.cached r (id, probeOk m) =
      { r with metaErrs := r.metaErrs ++ [.other "unexpected meta file version"] } ∧
    (fetch st [(id, probeOk m)] []).1 =
      .incomplete [] [] [.other "unexpected meta file version"] ∧
    (fetch st [(id, probeOk m)] []).2 = st := by
  have hload : loadMeta st.cached id (probeOk m) =
      .error (.other "unexpected meta file version") := by
    unfold loadMeta probeOk
    simp [hC, hv]
  have hstep : ∀ r' : Response, workerStep st.cached r' (id, probeOk m) =
      { r' with metaErrs := r'.metaErrs ++ [.other "unexpected meta file version"] } := by
    intro r'
    unfold workerStep
    rw [hload]
  have hresp : (fetchMetadata st [(id, probeOk m)]).1 =
      { Response.empty with metaErrs := [.other "unexpected meta file version"] } := by
    rw [fetchMetadata_fst]
    simp only [List.foldl, hstep Response.empty]
    rfl
  have herrs : (fetchMetadata st [(id, probeOk m)]).1.metaErrs.isEmpty = false := by
    rw [hresp]; rfl
  refine ⟨hload, hstep r, ?_, ?_⟩
  · rw [fetch_fst st [(id, probeOk m)] [], hresp]
    simp [applyFilters, Response.empty]
  · rw [fetch_snd st [(id, probeOk m)] [], fetchMetadata_snd st [(id, probeOk m)], herrs]
    simp

/-- Witness for C2 amended: the concrete version-2 block with an empty cache. -/
theorem unknown_version_sync_error_witness :
    loadMeta ([] : AssocMap BlockId Meta) blockA (probeOk metaV2) =
      .error (.other "unexpected meta file version") ∧
    (fetch ⟨[]⟩ [(blockA, probeOk metaV2)] []).1 =
      .incomplete [] [] [.other "unexpected meta file version"] ∧
    (fetch ⟨[]⟩ [(blockA, probeOk metaV2)] []).2 = ⟨[]⟩ := by
  have h := unknown_version_sync_error ⟨[]⟩ blockA metaV2 Response.empty
    (by decide) (by decide)
  exact ⟨h.1, h.2.2.1, h.2.2.2⟩

/-- C8: a block whose meta.json is deleted between the exists check and the
get call is classified with the MetaNotFound sentinel: the worker counts it in
the no-meta gauge bin and records it in the per-block partial map without
touching the multi-error, and a sync of such a block succeeds (no overall
error) with the block reported in the partial map. -/
theorem vanished_meta_not_found (st : FetcherState) (id : BlockId) (r : Response)
    (hC : AssocMap.lookup st.cached id = none) :
    loadMeta st.cached id probeVanished =
      .error (.metaNotFound "meta.json not found: deleted between exists and get") ∧
    workerStep st.cached r (id, probeVanished) =
      { r with
        noMetas := r.noMetas + 1
        partBlocks := r.partBlocks.insert id
          (.metaNotFound "meta.json not found: deleted between exists and get") } ∧
    (fetch st [(id, probeVanished)] []).1 =
      .ok [] [(id, .metaNotFound "meta.json not found: deleted between exists and get")] ∧
    (fetch st [(id, probeVanished)] []).2.cached = [] := by
  have hload : loadMeta st.cached id probeVanished =
      .error (.metaNotFound "meta.json not found: deleted between exists and get") := by
    unfold loadMeta probeVanished
    simp [hC]
  have hstep : ∀ r' : Response, workerStep st.cached r' (id, probeVanished) =
      { r' with
        noMetas := r'.noMetas + 1
        partBlocks := r'.partBlocks.insert id
          (.metaNotFound "meta.json not found: deleted between exists and get") } := by
    intro r'
    unfold workerStep
    rw [hload]
  have hresp : (fetchMetadata st [(id, probeVanished)]).1 =
      { Response.empty with
        noMetas := 1
        partBlocks := [(id, .metaNotFound "meta.json not found: deleted between exists and get")] } := by
    rw [fetchMetadata_fst]
    simp only [List.foldl, hstep Response.empty]
    rfl
  have herrs : (fetchMetadata st [(id, probeVanished)]).1.metaErrs.isEmpty = true := by
    rw [hresp]; rfl
  refine ⟨hload, hstep r, ?_, ?_⟩
  · rw [fetch_fst st [(id, probeVanished)] [], hresp]
    simp [applyFilters, Response.empty]
  · rw [fetch_snd st [(id, probeVanished)] [], fetchMetadata_snd st [(id, probeVanished)],
      herrs, hresp]
    simp [Response.empty]

/-- Witness for C8: the concrete vanished block with an empty cache. -/
theorem vanished_meta_not_found_witness :
    loadMeta ([] : AssocMap BlockId Meta) blockA probeVanished =
      .error (.metaNotFound "meta.json not found: deleted between exists and get") ∧
    (fetch ⟨[]⟩ [(blockA, probeVanished)] []).1 =
      .ok [] [(blockA, .metaNotFound "meta.json not found: deleted between exists and get")] ∧
    (fetch ⟨[]⟩ [(blockA, probeVanished)] []).2.cached = [] := by
  have h := vanished_meta_not_found ⟨[]⟩ blockA Response.empty (by decide)
  exact ⟨h.1, h.2.2.1, h.2.2.2⟩

/-- A deletion-mark worker step cannot clear a remembered probe error. -/
theorem delMarkStep_lastErr_isSome (nowSec delaySec : Int) (probes : BlockId → MarkProbe)
    (acc : DelMarkAcc) (id : BlockId) (h : acc.lastErr.isSome = true) :
    ((delMarkStep nowSec delaySec probes acc id).lastErr).isSome = true := by
  unfold delMarkStep
  cases probes id <;> simp [h]

/-- A remembered probe error survives the rest of the deletion-mark fold. -/
theorem foldl_delMark_lastErr_isSome (nowSec delaySec : Int) (probes : BlockId → MarkProbe)
    (ids : List BlockId) (acc : DelMarkAcc) (h : acc.lastErr.isSome = true) :
    ((ids.foldl (delMarkStep nowSec delaySec probes) acc).lastErr).isSome = true := by
  induction ids generalizing acc with
  | nil => exact h
  | cons a rest ih => exact ih _ (delMarkStep_lastErr_isSome _ _ _ _ _ h)

/-- If some scheduled block's mark probe fails with a non-sentinel error, the
deletion-mark fold ends with a remembered error. -/
theorem foldl_delMark_err_isSome (nowSec delaySec : Int) (probes : BlockId → MarkProbe)
    (ids : List BlockId) (acc : DelMarkAcc) (id : BlockId) (e : String)
    (hmem : id ∈ ids) (hp : probes id = .err e) :
    ((ids.foldl (delMarkStep nowSec delaySec probes) acc).lastErr).isSome = true := by
  induction ids generalizing acc with
  | nil => cases hmem
  | cons a rest ih =>
    simp only [List.foldl]
    rcases List.mem_cons.mp hmem with h | h
    · subst h
      apply foldl_delMark_lastErr_isSome
      simp [delMarkStep, hp]
    · exact ih _ h

/-- C7 counterexample: a run over two blocks in which blockA's deletion mark is
successfully probed and blockB's probe fails. The filter returns the error but
the published deletion-mark map (second component) is left at its pre-run
value, the empty map, so it was not updated with blockA's successful mark. -/
theorem delmark_publish_cex :
    marksProbe blockA = .mark 0 ∧
    (IgnoreDeletionMarkFilter.Filter 100 1000 marksProbe []
      [(blockA, metaA), (blockB, metaB)]).1 =
      .error "filter blocks marked for deletion: boom" ∧
    (IgnoreDeletionMarkFilter.Filter 100 1000 marksProbe []
      [(blockA, metaA), (blockB, metaB)]).2 = [] :=
  ⟨rfl, rfl, rfl⟩

/-- C7 amended: when some scheduled block's deletion-mark probe fails with an
error other than not-found or unmarshal, the filter returns that error to the
caller, and the published deletion-mark map is left at its pre-run value: the
marks gathered from successfully probed blocks in that run are discarded. -/
theorem delmark_error_keeps_published (nowSec delaySec : Int)
    (probes : BlockId → MarkProbe) (published : AssocMap BlockId Int)
    (metas : AssocMap BlockId Meta)
    (h : ∃ id ∈ AssocMap.keys metas, ∃ e, probes id = .err e) :
    ∃ e', IgnoreDeletionMarkFilter.Filter nowSec delaySec probes published metas =
      (.error ("filter blocks marked for deletion: " ++ e'), published) := by
  obtain ⟨id, hmem, e, hp⟩ := h
  have hsome := foldl_delMark_err_isSome nowSec delaySec probes (AssocMap.keys metas)
    ⟨metas, [], none⟩ id e hmem hp
  obtain ⟨e', he'⟩ := Option.isSome_iff_exists.mp hsome
  simp only [IgnoreDeletionMarkFilter.Filter]
  rw [he']
  exact ⟨e', rfl⟩

/-- C4: in the two-phase upload protocol, meta.json is written exactly at
commit and that write is the visibility flip: begin touches no key other than
the block's meta.json.temp, no file upload ever writes any block's meta.json,
a fresh block stays invisible through begin and any sequence of file uploads,
and a successful commit installs the staged descriptor at meta.json. -/
theorem upload_meta_written_only_at_commit
    (bkt : Bucket) (tenantID : String) (blockID : BlockId) (body : Option Meta)
    (reqs : List FileUploadReq) (hfresh : bkt.lookup (blockID, "meta.json") = none) :
    (∀ k : BlockId × String, k ≠ (blockID, "meta.json.temp") →
      ((createBlockUpload bkt tenantID blockID body).2).lookup k = bkt.lookup k) ∧
    (∀ (b : Bucket) (req : FileUploadReq) (id2 : BlockId),
      ((UploadBlockFile b req).2).lookup (id2, "meta.json") =
        b.lookup (id2, "meta.json")) ∧
    ((createBlockUpload bkt tenantID blockID body).2).lookup (blockID, "meta.json") =
      none ∧
    (runUploads (createBlockUpload bkt tenantID blockID body).2 reqs).lookup
      (blockID, "meta.json") = none ∧
    (∀ m, (runUploads (createBlockUpload bkt tenantID blockID body).2 reqs).lookup
        (blockID, "meta.json.temp") = some (.metaObj m) →
      (completeBlockUpload
        (runUploads (createBlockUpload bkt tenantID blockID body).2 reqs) blockID).1 =
        200 ∧
      ((completeBlockUpload
        (runUploads (createBlockUpload bkt tenantID blockID body).2 reqs) blockID).2).lookup
        (blockID, "meta.json") = some (.metaObj m)) := by
  have hneq : ((blockID, "meta.json") : BlockId × String) ≠ (blockID, "meta.json.temp") := by
    intro hh
    have hh2 : ("meta.json" : String) = "meta.json.temp" := congrArg Prod.snd hh
    exact absurd hh2 (by decide)
  have hbegin : ((createBlockUpload bkt tenantID blockID body).2).lookup
      (blockID, "meta.json") = none := by
    rw [createBlockUpload_frame bkt tenantID blockID body _ hneq]
    exact hfresh
  have hrun : (runUploads (createBlockUpload bkt tenantID blockID body).2 reqs).lookup
      (blockID, "meta.json") = none := by
    rw [(runUploads_meta_frame reqs _ blockID).1]
    exact hbegin
  refine ⟨fun k hk => createBlockUpload_frame bkt tenantID blockID body k hk,
    fun b req id2 => (uploadBlockFile_meta_frame b req id2).1, hbegin, hrun, ?_⟩
  intro m hm
  exact completeBlockUpload_commit _ blockID m hm

/-- Witness for C4: a concrete protocol run against an empty bucket — begin
with an uploaded meta, one file upload, then commit — after which meta.json
holds the sanitized staged meta. -/
theorem upload_meta_written_only_at_commit_witness :
    ((createBlockUpload [] "tenant-1" blockA (some metaUp)).2).lookup
      (blockA, "meta.json") = none ∧
    (runUploads (createBlockUpload [] "tenant-1" blockA (some metaUp)).2
      [⟨some blockA, "index", true, true, 10, 7⟩]).lookup (blockA, "meta.json") = none ∧
    (completeBlockUpload
      (runUploads (createBlockUpload [] "tenant-1" blockA (some metaUp)).2
        [⟨some blockA, "index", true, true, 10, 7⟩]) blockA).1 = 200 ∧
    ((completeBlockUpload
      (runUploads (createBlockUpload [] "tenant-1" blockA (some metaUp)).2
        [⟨some blockA, "index", true, true, 10, 7⟩]) blockA).2).lookup
      (blockA, "meta.json") = some (.metaObj metaUpSan) := by
  have h := upload_meta_written_only_at_commit [] "tenant-1" blockA (some metaUp)
    [⟨some blockA, "index", true, true, 10, 7⟩] (by rfl)
  have hcommit := h.2.2.2.2 metaUpSan (by rfl)
  exact ⟨h.2.2.1, h.2.2.2.1, hcommit.1, hcommit.2⟩

/-- Evaluation of UploadBlockFile once every request-level check has passed:
only the staged-descriptor check and the upload itself remain. -/
theorem uploadBlockFile_eval (bkt : Bucket) (req : FileUploadReq) (id : BlockId)
    (hb : req.blockID = some id) (h1 : ¬ req.pth = "") (h2 : ¬ req.tenantOk = false)
    (h3 : ¬ pathBase req.pth = "meta.json") (h4 : ¬ isAllowedPath req.pth = false)
    (h5 : ¬ (req.hasBody = false ∨ req.contentLength = 0)) :
    UploadBlockFile bkt req =
      (match bkt.lookup (id, "meta.json.temp") with
      | none => (400, bkt)
      | some (.fileObj _) => (500, bkt)
      | some (.metaObj _) => (200, bkt.insert (id, req.pth) (.fileObj req.content))) := by
  unfold UploadBlockFile
  rw [hb]
  dsimp only
  rw [if_neg h1, if_neg h2, if_neg h3, if_neg h4, if_neg h5]

/-- C6 counterexample: a request whose path is allow-listed and whose declared
content length is -1 (unknown, as Go reports for a chunked body) is not
rejected: it returns 200 and reaches the bucket upload, changing the bucket. -/
theorem uploadBlockFile_unknown_length_cex :
    (UploadBlockFile bktStagedW reqUnknownLenW).1 = 200 ∧
    (UploadBlockFile bktStagedW reqUnknownLenW).2 ≠ bktStagedW := by
  decide

/-- C6 amended: UploadBlockFile rejects with 400 every request whose path is
not exactly index or chunks followed by six digits, and every request whose
body is absent or whose content length equals zero — but an unknown (negative)
content length is not rejected. Only requests passing all checks (including
the staged-descriptor check) reach the bucket upload: a 200 response implies
every check passed and the bucket gained exactly the uploaded file. -/
theorem uploadBlockFile_validation (bkt : Bucket) (req : FileUploadReq) :
    (isAllowedPath req.pth = false → UploadBlockFile bkt req = (400, bkt)) ∧
    (req.hasBody = false ∨ req.contentLength = 0 → UploadBlockFile bkt req = (400, bkt)) ∧
    ((UploadBlockFile bkt req).1 = 200 →
      isAllowedPath req.pth = true ∧ pathBase req.pth ≠ "meta.json" ∧
      req.hasBody = true ∧ req.contentLength ≠ 0 ∧ req.tenantOk = true ∧
      ∃ id m, req.blockID = some id ∧
        bkt.lookup (id, "meta.json.temp") = some (.metaObj m) ∧
        (UploadBlockFile bkt req).2 = bkt.insert (id, req.pth) (.fileObj req.content)) := by
  refine ⟨?_, ?_, ?_⟩
  · intro hA
    unfold UploadBlockFile
    cases req.blockID with
    | none => rfl
    | some id =>
      dsimp only
      by_cases h1 : req.pth = ""
      · rw [if_pos h1]
      · rw [if_neg h1]
        by_cases h2 : req.tenantOk = false
        · rw [if_pos h2]
        · rw [if_neg h2]
          by_cases h3 : pathBase req.pth = "meta.json"
          · rw [if_pos h3]
          · rw [if_neg h3, if_pos hA]
  · intro hB
    unfold UploadBlockFile
    cases req.blockID with
    | none => rfl
    | some id =>
      dsimp only
      by_cases h1 : req.pth = ""
      · rw [if_pos h1]
      · rw [if_neg h1]
        by_cases h2 : req.tenantOk = false
        · rw [if_pos h2]
        · rw [if_neg h2]
          by_cases h3 : pathBase req.pth = "meta.json"
          · rw [if_pos h3]
          · rw [if_neg h3]
            by_cases h4 : isAllowedPath req.pth = false
            · rw [if_pos h4]
            · rw [if_neg h4, if_pos hB]
  · intro hst
    cases hb : req.blockID with
    | none =>
      have he : UploadBlockFile bkt req = (400, bkt) := by
        unfold UploadBlockFile; rw [hb]
      rw [he] at hst
      simp at hst
    | some id =>
      by_cases h1 : req.pth = ""
      · have he : UploadBlockFile bkt req = (400, bkt) := by
          unfold UploadBlockFile; rw [hb]; dsimp only; rw [if_pos h1]
        rw [he] at hst; simp at hst
      · by_cases h2 : req.tenantOk = false
        · have he : UploadBlockFile bkt req = (400, bkt) := by
            unfold UploadBlockFile; rw [hb]; dsimp only; rw [if_neg h1, if_pos h2]
          rw [he] at hst; simp at hst
        · by_cases h3 : pathBase req.pth = "meta.json"
          · have he : UploadBlockFile bkt req = (400, bkt) := by
              unfold UploadBlockFile; rw [hb]; dsimp only; rw [if_neg h1, if_neg h2, if_pos h3]
            rw [he] at hst; simp at hst
          · by_cases h4 : isAllowedPath req.pth = false
            · have he : UploadBlockFile bkt req = (400, bkt) := by
                unfold UploadBlockFile; rw [hb]; dsimp only
                rw [if_neg h1, if_neg h2, if_neg h3, if_pos h4]
              rw [he] at hst; simp at hst
            · by_cases h5 : req.hasBody = false ∨ req.contentLength = 0
              · have he : UploadBlockFile bkt req = (400, bkt) := by
                  unfold UploadBlockFile; rw [hb]; dsimp only
                  rw [if_neg h1, if_neg h2, if_neg h3, if_neg h4, if_pos h5]
                rw [he] at hst; simp at hst
              · have heval := uploadBlockFile_eval bkt req id hb h1 h2 h3 h4 h5
                cases hl : bkt.lookup (id, "meta.json.temp") with
                | none =>
                  rw [hl] at heval
                  rw [heval] at hst
                  simp at hst
                | some o =>
                  cases o with
                  | fileObj c =>
                    rw [hl] at heval
                    rw [heval] at hst
                    simp at hst
                  | metaObj m =>
                    rw [hl] at heval
                    have h4' : isAllowedPath req.pth = true := by
                      cases hcase : isAllowedPath req.pth
                      · exact absurd hcase h4
                      · rfl
                    have hbody : req.hasBody = true := by
                      cases hcase : req.hasBody
                      · exact absurd (Or.inl hcase) h5
                      · rfl
                    have htenant : req.tenantOk = true := by
                      cases hcase : req.tenantOk
                      · exact absurd hcase h2
                      · rfl
                    exact ⟨h4', h3, hbody, fun hc => h5 (Or.inr hc), htenant,
                      id, m, rfl, hl, by rw [heval]⟩

/-- Witness for C6 amended: the concrete staged bucket with a path outside the
allow-list, a zero content length, and a successful index upload. -/
theorem uploadBlockFile_validation_witness :
    UploadBlockFile bktStagedW reqMetaW = (400, bktStagedW) ∧
    UploadBlockFile bktStagedW reqEmptyW = (400, bktStagedW) ∧
    (isAllowedPath reqIdxW.pth = true ∧ pathBase reqIdxW.pth ≠ "meta.json" ∧
      reqIdxW.hasBody = true ∧ reqIdxW.contentLength ≠ 0 ∧ reqIdxW.tenantOk = true ∧
      ∃ id m, reqIdxW.blockID = some id ∧
        bktStagedW.lookup (id, "meta.json.temp") = some (.metaObj m) ∧
        (UploadBlockFile bktStagedW reqIdxW).2 =
          bktStagedW.insert (id, reqIdxW.pth) (.fileObj reqIdxW.content)) :=
  ⟨(uploadBlockFile_validation bktStagedW reqMetaW).1 (by decide),
    (uploadBlockFile_validation bktStagedW reqEmptyW).2.1 (Or.inr rfl),
    (uploadBlockFile_validation bktStagedW reqIdxW).2.2 (by decide)⟩

/-- Witness for C7 amended at the concrete two-block run. -/
theorem delmark_error_keeps_published_witness :
    (∃ id ∈ AssocMap.keys ([(blockA, metaA), (blockB, metaB)] : AssocMap BlockId Meta),
      ∃ e, marksProbe id = .err e) ∧
    ∃ e', IgnoreDeletionMarkFilter.Filter 100 1000 marksProbe []
        [(blockA, metaA), (blockB, metaB)] =
      (.error ("filter blocks marked for deletion: " ++ e'), []) :=
  ⟨⟨blockB, by decide, "boom", by rfl⟩,
    delmark_error_keeps_published 100 1000 marksProbe [] [(blockA, metaA), (blockB, metaB)]
      ⟨blockB, by decide, "boom", by rfl⟩⟩

/-- The readiness loop ignores metas above compaction level 1. -/
theorem jobLoop_level_gt_one (now waitPeriod : Int) (attrs : BlockId → Except String Int)
    (metas : List Meta) (h : ∀ m ∈ metas, m.level > 1) :
    jobWaitPeriodElapsedLoop now waitPeriod attrs metas = (true, none, none) := by
  induction metas with
  | nil => rfl
  | cons m rest ih =>
    have hm : m.level > 1 := h m (List.mem_cons_self _ _)
    have hne : ¬ (m.level = 1) := by omega
    simp only [jobWaitPeriodElapsedLoop, if_neg hne]
    exact ih (fun x hx => h x (List.mem_cons_of_mem _ hx))

/-- When every level-1 probe succeeds and some level-1 meta is within the wait
period, the readiness loop stops at a fresh level-1 meta with no error. -/
theorem jobLoop_fresh (now waitPeriod : Int) (attrs : BlockId → Except String Int)
    (metas : List Meta)
    (hall : ∀ m ∈ metas, m.level = 1 → ∃ lm, attrs m.ulid = .ok lm)
    (hsome : ∃ m ∈ metas, m.level = 1 ∧
      ∃ lm, attrs m.ulid = .ok lm ∧ now - lm < waitPeriod) :
    ∃ m', m'.level = 1 ∧ (∃ lm, attrs m'.ulid = .ok lm ∧ now - lm < waitPeriod) ∧
      jobWaitPeriodElapsedLoop now waitPeriod attrs metas = (false, some m', none) := by
  induction metas with
  | nil =>
    obtain ⟨m, hm, _⟩ := hsome
    cases hm
  | cons a rest ih =>
    by_cases ha : a.level = 1
    · obtain ⟨lm, hlm⟩ := hall a (List.mem_cons_self _ _) ha
      by_cases hfresh : now - lm < waitPeriod
      · refine ⟨a, ha, ⟨lm, hlm, hfresh⟩, ?_⟩
        simp only [jobWaitPeriodElapsedLoop, if_pos ha, hlm, if_pos hfresh]
      · have hrest : ∃ m ∈ rest, m.level = 1 ∧
            ∃ lm, attrs m.ulid = .ok lm ∧ now - lm < waitPeriod := by
          obtain ⟨m, hm, hm1, lm', hlm', hf'⟩ := hsome
          rcases List.mem_cons.mp hm with he | hmr
          · subst he
            rw [hlm] at hlm'
            injection hlm' with hinj
            have : now - lm < waitPeriod := by rw [hinj]; exact hf'
            exact absurd this hfresh
          · exact ⟨m, hmr, hm1, lm', hlm', hf'⟩
        obtain ⟨m', h1, h2, h3⟩ :=
          ih (fun x hx hx1 => hall x (List.mem_cons_of_mem _ hx) hx1) hrest
        refine ⟨m', h1, h2, ?_⟩
        simp only [jobWaitPeriodElapsedLoop, if_pos ha, hlm, if_neg hfresh]
        exact h3
    · have hrest : ∃ m ∈ rest, m.level = 1 ∧
          ∃ lm, attrs m.ulid = .ok lm ∧ now - lm < waitPeriod := by
        obtain ⟨m, hm, hm1, lm', hlm', hf'⟩ := hsome
        rcases List.mem_cons.mp hm with he | hmr
        · subst he
          exact absurd hm1 ha
        · exact ⟨m, hmr, hm1, lm', hlm', hf'⟩
      obtain ⟨m', h1, h2, h3⟩ :=
        ih (fun x hx hx1 => hall x (List.mem_cons_of_mem _ hx) hx1) hrest
      refine ⟨m', h1, h2, ?_⟩
      simp only [jobWaitPeriodElapsedLoop, if_neg ha]
      exact h3

/-- C5 (spec-modelled): jobWaitPeriodElapsed returns (true, nil, nil) when the
wait period is disabled; when it is enabled, all level-1 probes succeed and
some level-1 meta was uploaded within the wait period, it returns (false, that
meta, nil); and metas above level 1 are never probed, so a job holding only
such metas returns (true, nil, nil) for any attribute oracle. -/
theorem jobWaitPeriodElapsed_spec (now waitPeriod : Int)
    (attrs : BlockId → Except String Int) (metas : List Meta) :
    (waitPeriod = 0 → jobWaitPeriodElapsed now waitPeriod attrs metas = (true, none, none)) ∧
    (waitPeriod ≠ 0 →
      (∀ m ∈ metas, m.level = 1 → ∃ lm, attrs m.ulid = .ok lm) →
      (∃ m ∈ metas, m.level = 1 ∧ ∃ lm, attrs m.ulid = .ok lm ∧ now - lm < waitPeriod) →
      ∃ m', m'.level = 1 ∧ (∃ lm, attrs m'.ulid = .ok lm ∧ now - lm < waitPeriod) ∧
        jobWaitPeriodElapsed now waitPeriod attrs metas = (false, some m', none)) ∧
    ((∀ m ∈ metas, m.level > 1) →
      jobWaitPeriodElapsed now waitPeriod attrs metas = (true, none, none)) := by
  refine ⟨?_, ?_, ?_⟩
  · intro h0
    unfold jobWaitPeriodElapsed
    rw [if_pos h0]
  · intro hne hall hsome
    obtain ⟨m', h1, h2, h3⟩ := jobLoop_fresh now waitPeriod attrs metas hall hsome
    refine ⟨m', h1, h2, ?_⟩
    unfold jobWaitPeriodElapsed
    rw [if_neg hne]
    exact h3
  · intro hgt
    unfold jobWaitPeriodElapsed
    by_cases h0 : waitPeriod = 0
    · rw [if_pos h0]
    · rw [if_neg h0]
      exact jobLoop_level_gt_one now waitPeriod attrs metas hgt

/-- Witness for C5 at the readiness-gate scenarios of the test: wait period
disabled, a fresh level-1 block with the wait period enabled, and a job
holding only level-2 metas. -/
theorem jobWaitPeriodElapsed_spec_witness :
    jobWaitPeriodElapsed 1200 0 attrsW [metaL1Old, metaL1New] = (true, none, none) ∧
    (∃ m', m'.level = 1 ∧ (∃ lm, attrsW m'.ulid = .ok lm ∧ (1200 : Int) - lm < 600) ∧
      jobWaitPeriodElapsed 1200 600 attrsW [metaL1Old, metaL1New] = (false, some m', none)) ∧
    jobWaitPeriodElapsed 1200 600 attrsW [metaL2a, metaL2b] = (true, none, none) := by
  refine ⟨(jobWaitPeriodElapsed_spec 1200 0 attrsW [metaL1Old, metaL1New]).1 rfl,
    (jobWaitPeriodElapsed_spec 1200 600 attrsW [metaL1Old, metaL1New]).2.1
      (by decide) ?_ ?_,
    (jobWaitPeriodElapsed_spec 1200 600 attrsW [metaL2a, metaL2b]).2.2 (by decide)⟩
  · intro m hm hm1
    by_cases hx : m.ulid = (⟨10, 0⟩ : BlockId)
    · exact ⟨0, by simp [attrsW, hx]⟩
    · exact ⟨900, by simp [attrsW, hx]⟩
  · exact ⟨metaL1New, by decide, rfl, 900, rfl, by decide⟩
